import Mathlib

set_option linter.unusedVariables false

/-!
# Verification of the `db` Node layer of gotktrix

A shallow embedding of `internal/gotktrix/internal/db/node.go`: the key
sanitizer `mustKey`, the `Node` handle with its transaction manager
(`doTx` / `TxUpdate` / `TxView`), the CRUD operations (`Set`, `SetIfNone`,
`Exists`, `Delete`), iteration (`Each`, `EachKey`, `Length`) and the
eviction operation (`DropExceptLast`).

The underlying storage engine (bbolt) and the repository's `NodePath`
resolution helpers (`NodePath.Bucket`, `NodePath.BucketExists`, the `KV`
codec) are not part of the translated source file; they are modelled from
the specification (nested named buckets, byte-ordered entries, a single
writable transaction, create-on-write path resolution, a pluggable value
codec).  Everything in `node.go` itself is translated statement by
statement.

Keys and values are byte strings, modelled as `List Nat`.  The mutable
environment captured by Go closures (iteration callbacks mutate variables
of the enclosing scope) is modelled by a caller-chosen state component
`user : σ` threaded through the system state.
-/

namespace KVDB

/-- A byte-string key, as Go `string` / `[]byte`. -/
abbrev Key := List Nat

/-- A direct child of a bucket: either a leaf key/value entry holding raw
bytes, or a nested bucket. -/
inductive Entry : Type where
  | leaf (v : List Nat)
  | sub (b : List (Key × Entry))

/-- A bucket: an ordered association list of direct children, kept in
ascending byte-lexicographic key order (bbolt stores keys byte-ordered). -/
abbrev Bucket := List (Key × Entry)

/-- Errors of the model, mirroring the error values that `node.go` and the
engine can produce.  `user n` stands for an arbitrary caller/codec error. -/
inductive Err : Type where
  | keyNotFound
  | txNotWritable
  | txClosed
  | incompatibleValue
  | bucketNotFound
  | eachBreak
  | user (n : Nat)
  deriving DecidableEq, Repr

/-- The reserved two-null-byte sentinel `nullKey = "\x00\x00"`. -/
def nullKey : Key := [0, 0]

/-- Translation of `mustKey` (node.go lines 15-32): empty keys map to the
two-byte null sentinel; keys made entirely of null bytes of length at least
two get one more null byte appended; everything else passes through. -/
def mustKey (key : Key) : Key :=
  if key = [] then nullKey
  else
    let nulls := key.countP (fun c => c = 0)
    if nulls = key.length then
      if 2 ≤ nulls then key ++ [0]
      else key
    else key

/-- Byte-lexicographic strict order on keys (bbolt's `bytes.Compare < 0`). -/
def keyLt : Key → Key → Bool
  | [], [] => false
  | [], _ :: _ => true
  | _ :: _, [] => false
  | a :: as, b :: bs => a < b || (a = b && keyLt as bs)

/-- Look up the direct child of a bucket under a key. -/
def lookupEntry : Bucket → Key → Option Entry
  | [], _ => none
  | (k', e) :: rest, k => if k = k' then some e else lookupEntry rest k

/-- `Bucket.Get`: the raw bytes stored under a key.  Returns `none` both
for a missing key and for a key that names a nested bucket (bbolt `Get`
returns nil for bucket keys). -/
def bGet (b : Bucket) (k : Key) : Option (List Nat) :=
  match lookupEntry b k with
  | some (Entry.leaf v) => some v
  | _ => none

/-- Insert or overwrite an entry, keeping ascending key order. -/
def insertSorted : Bucket → Key → Entry → Bucket
  | [], k, e => [(k, e)]
  | (k', e') :: rest, k, e =>
    if keyLt k k' then (k, e) :: (k', e') :: rest
    else if k = k' then (k, e) :: rest
    else (k', e') :: insertSorted rest k e

/-- Remove the entry under a key, if any. -/
def eraseKey : Bucket → Key → Bucket
  | [], _ => []
  | (k', e) :: rest, k => if k = k' then rest else (k', e) :: eraseKey rest k

/-- `Bucket.Put`: store bytes under a key; fails with
`ErrIncompatibleValue` if the key currently names a nested bucket. -/
def bPut (b : Bucket) (k : Key) (v : List Nat) : Except Err Bucket :=
  match lookupEntry b k with
  | some (Entry.sub _) => Except.error Err.incompatibleValue
  | _ => Except.ok (insertSorted b k (Entry.leaf v))

/-- `Bucket.Delete`: remove the leaf under a key; removing an absent key is
a no-op, removing a bucket key fails with `ErrIncompatibleValue`. -/
def bDelete (b : Bucket) (k : Key) : Except Err Bucket :=
  match lookupEntry b k with
  | some (Entry.sub _) => Except.error Err.incompatibleValue
  | _ => Except.ok (eraseKey b k)

/-- Descend from a root bucket along a path without creating anything;
`none` when a segment is missing or names a leaf. -/
def getBucketAt : Bucket → List Key → Option Bucket
  | b, [] => some b
  | b, seg :: rest =>
    match lookupEntry b seg with
    | some (Entry.sub inner) => getBucketAt inner rest
    | _ => none

/-- Modelled from the spec: the create-on-write half of `NodePath.Bucket`
(not under `src/`): on a write-capable transaction missing intermediate
buckets are created transparently; a path segment already holding a leaf
value cannot become a bucket (`ErrIncompatibleValue`).  Returns the updated
root. -/
def createBucketAt : Bucket → List Key → Except Err Bucket
  | b, [] => Except.ok b
  | b, seg :: rest =>
    match lookupEntry b seg with
    | some (Entry.sub inner) =>
      (createBucketAt inner rest).map (fun i => insertSorted b seg (Entry.sub i))
    | some (Entry.leaf _) => Except.error Err.incompatibleValue
    | none =>
      (createBucketAt [] rest).map (fun i => insertSorted b seg (Entry.sub i))

/-- Rewrite the bucket located at `path` through `g`, leaving the rest of
the tree unchanged.  This is how a mutation through a live bucket handle
(which the model represents by the bucket's path) acts on the
transaction's root. -/
def updateBucketAt (g : Bucket → Except Err Bucket) : Bucket → List Key → Except Err Bucket
  | b, [] => g b
  | b, seg :: rest =>
    match lookupEntry b seg with
    | some (Entry.sub inner) =>
      (updateBucketAt g inner rest).map (fun i => insertSorted b seg (Entry.sub i))
    | _ => Except.error Err.bucketNotFound

/-- Transaction lifecycle events, used to observe begin/commit/rollback. -/
inductive Ev : Type where
  | begin (writable : Bool)
  | commit
  | rollback
  deriving DecidableEq, Repr

/-- One physical engine transaction: its writable flag and its working
snapshot of the whole bucket tree. -/
structure TxSt : Type where
  writable : Bool
  root : Bucket

/-- The world state: the committed bucket tree, the (at most one) active
transaction, the trace of transaction lifecycle events, and `user`, the
mutable environment captured by the caller's Go closures. -/
structure Sys (σ : Type) : Type where
  db : Bucket
  tx : Option TxSt
  events : List Ev
  user : σ

/-- The `Node` handle (node.go lines 34-39).  `txn` is the node's
reference to an active transaction, carrying the transaction's writable
flag as `tx.Writable()` is read off the node's own reference; `buck` is
the resolved-bucket cache, a live handle modelled by the bucket's path;
`path` is the `NodePath`. -/
structure Node : Type where
  txn : Option Bool
  buck : Option (List Key)
  path : List Key

/-- An operation on the world, returning a value or an error (values model
data flowing out of Go callbacks through captured variables). -/
abbrev Op (σ : Type) (α : Type) := Sys σ → Except Err α × Sys σ

/-- Roll the active transaction back: its working snapshot is discarded. -/
def sysRollback (s : Sys σ) : Sys σ :=
  { s with tx := none, events := s.events ++ [Ev.rollback] }

/-- Commit the active transaction: its working snapshot becomes the
committed tree. -/
def sysCommit (s : Sys σ) : Sys σ :=
  { db := match s.tx with
          | some t => t.root
          | none => s.db,
    tx := none,
    events := s.events ++ [Ev.commit],
    user := s.user }

/-- The current root visible to the node: the active transaction's working
snapshot. -/
def txRoot (s : Sys σ) : Bucket :=
  match s.tx with
  | some t => t.root
  | none => s.db

/-- Translation of `Node.bucket` (node.go lines 94-113): return the cached
handle if present; fail with `ErrTxClosed` when the node has no
transaction; otherwise resolve the path (`NodePath.Bucket`, modelled from
the spec: create-on-write for writable transactions, lookup only for
read-only ones, with `ErrBucketNotFound` mapped to `ErrKeyNotFound` as in
the source).  On success the freshly resolved handle is cached on the
returned node. -/
def Node.bucketR (n : Node) : Op σ (Node × List Key) := fun s =>
  match n.buck with
  | some h => (Except.ok (n, h), s)
  | none =>
    match n.txn with
    | none => (Except.error Err.txClosed, s)
    | some _ =>
      match s.tx with
      | none => (Except.error Err.txClosed, s)
      | some t =>
        if t.writable then
          match createBucketAt t.root n.path with
          | Except.ok root1 =>
            (Except.ok ({ n with buck := some n.path }, n.path),
             { s with tx := some { t with root := root1 } })
          | Except.error e => (Except.error e, s)
        else
          match getBucketAt t.root n.path with
          | some _ => (Except.ok ({ n with buck := some n.path }, n.path), s)
          | none => (Except.error Err.keyNotFound, s)

/-- Translation of `Node.bucketExists` (node.go lines 115-126): true at
once when the handle cache is filled; otherwise `NodePath.BucketExists`
(modelled from the spec: pure lookup, never creating), caching the handle
when the bucket is present. -/
def Node.bucketExistsR (n : Node) : Sys σ → (Bool × Node) × Sys σ := fun s =>
  match n.buck with
  | some _ => ((true, n), s)
  | none =>
    match s.tx with
    | none => ((false, n), s)
    | some t =>
      match getBucketAt t.root n.path with
      | some _ => ((true, { n with buck := some n.path }), s)
      | none => ((false, n), s)

/-- Translation of `Node.doTx` (node.go lines 59-92).  A node that already
holds a transaction reuses it: `f` runs directly, with no commit or
rollback here.  Otherwise a fresh transaction begins, the bucket cache is
cleared, and for a writable transaction on a non-empty path the bucket is
pre-resolved, a failure of which returns before `f` is invoked; then `f`
runs; any error rolls back (the deferred `t.Rollback()`), success commits
a writable transaction and rolls back (closes) a read-only one. -/
def Node.doTx (n : Node) (f : Node → Op σ α) (writable : Bool) : Op σ α := fun s =>
  match n.txn with
  | some _ => f n s
  | none =>
    let s1 : Sys σ :=
      { s with tx := some { writable := writable, root := s.db },
               events := s.events ++ [Ev.begin writable] }
    let n1 : Node := { n with txn := some writable, buck := none }
    match
      (if 0 < n1.path.length ∧ writable then
        match n1.bucketR s1 with
        | (Except.ok (n2, _), s2) => (Except.ok n2, s2)
        | (Except.error e, s2) => (Except.error e, s2)
      else (Except.ok n1, s1) : Except Err Node × Sys σ)
    with
    | (Except.error e, s2) => (Except.error e, sysRollback s2)
    | (Except.ok n2, s2) =>
      match f n2 s2 with
      | (Except.error e, s3) => (Except.error e, sysRollback s3)
      | (Except.ok a, s3) =>
        if writable then (Except.ok a, sysCommit s3)
        else (Except.ok a, sysRollback s3)

/-- Translation of `Node.TxUpdate` (node.go lines 44-50): refuse at once
when the node's inherited transaction is read-only, otherwise run `f`
through `doTx` in writable mode. -/
def Node.TxUpdate (n : Node) (f : Node → Op σ α) : Op σ α := fun s =>
  match n.txn with
  | some false => (Except.error Err.txNotWritable, s)
  | _ => n.doTx f true s

/-- Translation of `Node.TxView` (node.go lines 55-57). -/
def Node.TxView (n : Node) (f : Node → Op σ α) : Op σ α :=
  n.doTx f false

/-- Translation of `Node.FromPath` (node.go lines 130-139): replace the
path wholesale (Go truncates the slice capacity so the argument cannot be
grown through this node; lists are immutable here), clear the bucket
cache, and best-effort pre-fill it, ignoring any error. -/
def Node.FromPath (n : Node) (path : List Key) : Sys σ → Node × Sys σ := fun s =>
  let n1 : Node := { n with path := path, buck := none }
  match n1.bucketR s with
  | (Except.ok (n2, _), s1) => (n2, s1)
  | (Except.error _, s1) => (n1, s1)

/-- Translation of `Node.Node` (node.go lines 143-164) for a non-empty
name list (the source panics on an empty one, a programmer error): append
the names to the path and rebuild through `FromPath`; the active
transaction is inherited. -/
def Node.child (n : Node) (names : List Key) : Sys σ → Node × Sys σ :=
  n.FromPath (n.path ++ names)

/-- Modelled from the spec: the pluggable value codec of the `KV` store
(`kv.Marshal` / `kv.Unmarshal`, not under `src/`): marshal/unmarshal of
application values to and from bytes, supplied by the store owner. -/
structure Codec (V : Type) : Type where
  marshal : V → Except Err (List Nat)
  unmarshal : List Nat → Except Err V

/-- The identity codec on raw byte values, an always-succeeding codec. -/
def codecId : Codec (List Nat) :=
  { marshal := Except.ok, unmarshal := Except.ok }

/-- `Bucket.Put` through a live handle (a path into the transaction's
working tree): fails with `ErrTxClosed` / `ErrTxNotWritable` outside a
writable transaction, as bbolt does. -/
def txPut (h : List Key) (k : Key) (v : List Nat) : Op σ Unit := fun s =>
  match s.tx with
  | none => (Except.error Err.txClosed, s)
  | some t =>
    if t.writable then
      match updateBucketAt (fun b => bPut b k v) t.root h with
      | Except.ok root1 => (Except.ok (), { s with tx := some { t with root := root1 } })
      | Except.error e => (Except.error e, s)
    else (Except.error Err.txNotWritable, s)

/-- `Bucket.Delete` through a live handle. -/
def txDelete (h : List Key) (k : Key) : Op σ Unit := fun s =>
  match s.tx with
  | none => (Except.error Err.txClosed, s)
  | some t =>
    if t.writable then
      match updateBucketAt (fun b => bDelete b k) t.root h with
      | Except.ok root1 => (Except.ok (), { s with tx := some { t with root := root1 } })
      | Except.error e => (Except.error e, s)
    else (Except.error Err.txNotWritable, s)

/-- `Bucket.Get` through a live handle: a pure read of the transaction's
working tree; never an error (missing key or bucket key yield `none`). -/
def txGet (h : List Key) (k : Key) (s : Sys σ) : Option (List Nat) :=
  match getBucketAt (txRoot s) h with
  | some b => bGet b k
  | none => none

/-- The contents of the bucket behind a live handle, as the cursor sees
them (first to last in key order); empty for a stale handle. -/
def txContents (h : List Key) (s : Sys σ) : Bucket :=
  (getBucketAt (txRoot s) h).getD []

/-- Translation of `Node.Set` (node.go lines 192-208): marshal first —
failing before any transaction is opened — then sanitize the key, and
inside a writable transaction resolve the bucket and put the bytes. -/
def Node.Set (kv : Codec V) (n : Node) (k : Key) (v : V) : Op σ Unit := fun s =>
  match kv.marshal v with
  | Except.error e => (Except.error e, s)
  | Except.ok bytes =>
    let k1 := mustKey k
    n.TxUpdate (fun n1 s1 =>
      match n1.bucketR s1 with
      | (Except.error e, s2) => (Except.error e, s2)
      | (Except.ok (_, h), s2) => txPut h k1 bytes s2) s

/-- Translation of `Node.SetIfNone` (node.go lines 169-189): like `Set`,
but inside the same writable transaction a `Get` runs first and an
existing value makes the whole call a successful no-op. -/
def Node.SetIfNone (kv : Codec V) (n : Node) (k : Key) (v : V) : Op σ Unit := fun s =>
  match kv.marshal v with
  | Except.error e => (Except.error e, s)
  | Except.ok bytes =>
    let k1 := mustKey k
    n.TxUpdate (fun n1 s1 =>
      match n1.bucketR s1 with
      | (Except.error e, s2) => (Except.error e, s2)
      | (Except.ok (_, h), s2) =>
        match txGet h k1 s2 with
        | some _ => (Except.ok (), s2)
        | none => txPut h k1 bytes s2) s

/-- Translation of `Node.Exists` (node.go lines 211-228).  Note that the
source does NOT pass `k` through `mustKey`: the raw key is looked up.  An
empty key asks for the bucket's own presence.  Any internal error yields
`false`. -/
def Node.Exists (n : Node) (k : Key) : Sys σ → Bool × Sys σ := fun s =>
  let r :=
    n.TxView (fun n1 s1 =>
      let ((ex, n2), s2) := n1.bucketExistsR s1
      if ex then
        match n2.bucketR s2 with
        | (Except.error e, s3) => (Except.error e, s3)
        | (Except.ok (_, h), s3) =>
          (Except.ok (decide (k = []) || (txGet h k s3).isSome), s3)
      else (Except.ok false, s2)) s
  match r with
  | (Except.ok b, s1) => (b, s1)
  | (Except.error _, s1) => (false, s1)

/-- Translation of `Node.Get` (node.go lines 231-251): sanitize, resolve,
fetch (`ErrKeyNotFound` when absent), and decode. -/
def Node.Get (kv : Codec V) (n : Node) (k : Key) : Op σ V := fun s =>
  let k1 := mustKey k
  n.TxView (fun n1 s1 =>
    match n1.bucketR s1 with
    | (Except.error e, s2) => (Except.error e, s2)
    | (Except.ok (_, h), s2) =>
      match txGet h k1 s2 with
      | none => (Except.error Err.keyNotFound, s2)
      | some bytes =>
        match kv.unmarshal bytes with
        | Except.error e => (Except.error e, s2)
        | Except.ok v => (Except.ok v, s2)) s

/-- Translation of `Node.Delete` (node.go lines 253-267): sanitize the
key; a missing bucket (`ErrKeyNotFound` from resolution) means already
deleted and is a successful no-op. -/
def Node.Delete (n : Node) (k : Key) : Op σ Unit := fun s =>
  let k1 := mustKey k
  n.TxUpdate (fun n1 s1 =>
    match n1.bucketR s1 with
    | (Except.error e, s2) =>
      if e = Err.keyNotFound then (Except.ok (), s2) else (Except.error e, s2)
    | (Except.ok (_, h), s2) => txDelete h k1 s2) s

/-- The cursor walk of `DropExceptLast` (node.go lines 291-305), over the
bucket's entries from last to first.  The first `last` entries met are
kept; after that, nested-bucket entries survive the cursor pass but their
keys are collected, and leaf entries are deleted at the cursor.  The input
and the surviving entries are in reversed (descending) key order. -/
def dropWalk : Int → List (Key × Entry) → List (Key × Entry) × List Key
  | _, [] => ([], [])
  | last, (k, e) :: rest =>
    if 0 < last then
      let (surv, bks) := dropWalk (last - 1) rest
      ((k, e) :: surv, bks)
    else
      match e with
      | Entry.sub inner =>
        let (surv, bks) := dropWalk last rest
        ((k, Entry.sub inner) :: surv, bks ++ [k])
      | Entry.leaf _ => dropWalk last rest

/-- Translation of `Node.DropExceptLast` (node.go lines 279-313): walk the
cursor from the last key backward keeping `last` entries, deleting leaf
entries at the cursor; then, in a second pass, delete the collected nested
buckets by name (errors of `DeleteBucket` are ignored in the source; the
cursor deletions cannot fail inside this writable transaction, so
`lastError` stays nil). -/
def Node.DropExceptLast (n : Node) (last : Int) : Op σ Unit :=
  n.TxUpdate (fun n1 s1 =>
    match n1.bucketR s1 with
    | (Except.error e, s2) => (Except.error e, s2)
    | (Except.ok (_, h), s2) =>
      let b := txContents h s2
      let (survRev, bks) := dropWalk last b.reverse
      let b1 := bks.foldl eraseKey survRev.reverse
      match s2.tx with
      | none => (Except.error Err.txClosed, s2)
      | some t =>
        match updateBucketAt (fun _ => Except.ok b1) t.root h with
        | Except.ok root1 =>
          (Except.ok (), { s2 with tx := some { t with root := root1 } })
        | Except.error e => (Except.error e, s2))

/-- Whether a direct child is a leaf entry, i.e. the cursor reports a
non-nil value for it. -/
def isLeafE : Key × Entry → Bool := fun p =>
  match p.2 with
  | Entry.leaf _ => true
  | Entry.sub _ => false

/-- Count of leaf entries among a bucket's direct children: the first
cursor pass of `Each` (node.go lines 381-386), which increments only when
the cursor reports a value. -/
def countLeaves (b : Bucket) : Nat :=
  b.countP isLeafE

/-- The second cursor pass of `Each` (node.go lines 388-403): skip nested
buckets; decode each leaf into the shared output value (a decode failure
aborts with that error); hand the decoded value, the key and the stable
total count to the callback, which may mutate its captured environment
`σ`; `EachBreak` stops the loop successfully, any other error aborts. -/
def eachLoop (kv : Codec V) (fn : σ → V → Key → Nat → Option Err × σ)
    (length : Nat) : List (Key × Entry) → Sys σ → Except Err Unit × Sys σ
  | [], s => (Except.ok (), s)
  | (_, Entry.sub _) :: rest, s => eachLoop kv fn length rest s
  | (k, Entry.leaf bytes) :: rest, s =>
    match kv.unmarshal bytes with
    | Except.error e => (Except.error e, s)
    | Except.ok w =>
      match fn s.user w k length with
      | (some e, u1) =>
        if e = Err.eachBreak then (Except.ok (), { s with user := u1 })
        else (Except.error e, { s with user := u1 })
      | (none, u1) => eachLoop kv fn length rest { s with user := u1 }

/-- Translation of `Node.Each` (node.go lines 368-407): inside a read-only
transaction, a missing bucket yields zero iterations; a first cursor pass
counts the leaf entries, a second pass visits them.  The `prefix`
parameter is accepted and, as in the source, never used. -/
def Node.Each (kv : Codec V) (n : Node) (pfx : Key)
    (fn : σ → V → Key → Nat → Option Err × σ) : Op σ Unit :=
  n.TxView (fun n1 s1 =>
    match n1.bucketR s1 with
    | (Except.error e, s2) =>
      if e = Err.keyNotFound then (Except.ok (), s2) else (Except.error e, s2)
    | (Except.ok (_, h), s2) =>
      let b := txContents h s2
      eachLoop kv fn (countLeaves b) b s2)

/-- The loop of `EachKey` (node.go lines 428-435): every direct child key
is visited, nested buckets included, with no decoding. -/
def eachKeyLoop (fn : σ → Key → Nat → Option Err × σ) (length : Nat) :
    List (Key × Entry) → Sys σ → Except Err Unit × Sys σ
  | [], s => (Except.ok (), s)
  | (k, _) :: rest, s =>
    match fn s.user k length with
    | (some e, u1) =>
      if e = Err.eachBreak then (Except.ok (), { s with user := u1 })
      else (Except.error e, { s with user := u1 })
    | (none, u1) => eachKeyLoop fn length rest { s with user := u1 }

/-- Translation of `Node.EachKey` (node.go lines 410-439): like `Each`
but the first pass counts every direct child and the second pass visits
every direct child key.  The `prefix` parameter is never used. -/
def Node.EachKey (n : Node) (pfx : Key)
    (fn : σ → Key → Nat → Option Err × σ) : Op σ Unit :=
  n.TxView (fun n1 s1 =>
    match n1.bucketR s1 with
    | (Except.error e, s2) =>
      if e = Err.keyNotFound then (Except.ok (), s2) else (Except.error e, s2)
    | (Except.ok (_, h), s2) =>
      let b := txContents h s2
      eachKeyLoop fn b.length b s2)

/-- Translation of `Node.Length` (node.go lines 317-339): count every
direct child with one cursor scan; a missing bucket counts zero.  Returns
the captured `length` variable together with the `TxView` error.  The
`prefix` parameter is never used. -/
def Node.Length (n : Node) (pfx : Key) : Sys σ → (Nat × Except Err Unit) × Sys σ := fun s =>
  let r :=
    n.TxView (fun n1 s1 =>
      match n1.bucketR s1 with
      | (Except.error e, s2) =>
        if e = Err.keyNotFound then (Except.ok 0, s2) else (Except.error e, s2)
      | (Except.ok (_, h), s2) => (Except.ok (txContents h s2).length, s2)) s
  match r with
  | (Except.ok len, s1) => ((len, Except.ok ()), s1)
  | (Except.error e, s1) => ((0, Except.error e), s1)

/-- A fresh node (no transaction, no cache) with path `["\x01"]`. -/
def node1 : Node := { txn := none, buck := none, path := [[1]] }

/-- A fresh node addressing the root of the tree. -/
def rootNode : Node := { txn := none, buck := none, path := [] }

/-- A quiescent world: committed tree `b`, no transaction, empty trace. -/
def initSys (b : Bucket) (u : σ) : Sys σ := { db := b, tx := none, events := [], user := u }

/-- A committed tree whose only child is the bucket `["\x01"]` with
contents `b` — the bucket `node1` addresses. -/
def db1 (b : Bucket) : Bucket := [([1], Entry.sub b)]

/-- A probe callback that stamps a recognizable committed tree, so that a
run reveals whether the transaction callback was ever invoked. -/
def c2Probe : Node → Op Unit Unit := fun _ s =>
  (Except.ok (), { s with db := [([9], Entry.leaf [])] })

/-- A codec whose marshal always fails, for exercising encode errors. -/
def codecFail : Codec Nat :=
  { marshal := fun _ => Except.error (Err.user 1),
    unmarshal := fun _ => Except.error (Err.user 1) }

/-- A bucket with no nested sub-buckets: every direct child is a leaf. -/
def bucketAllLeaves (b : Bucket) : Bool := b.all isLeafE

/-- Strictly ascending byte-lexicographic key order, pairwise. -/
def sortedKeysB : Bucket → Bool
  | [] => true
  | x :: rest => (rest.all fun y => keyLt x.1 y.1) && sortedKeysB rest

/-- `node1` as it reaches a `TxUpdate` callback: writable transaction
inherited, bucket handle cached by the pre-resolution step of `doTx`. -/
def nodeW : Node := { txn := some true, buck := some [[1]], path := [[1]] }

/-- `node1` as it reaches a `TxView` callback: read-only transaction, no
cached handle (read-only `doTx` does not pre-resolve). -/
def nodeR : Node := { txn := some false, buck := none, path := [[1]] }

/-- The world right after `doTx` begins a fresh transaction over `s`. -/
def withTx (s : Sys σ) (w : Bool) : Sys σ :=
  { s with tx := some { writable := w, root := s.db },
           events := s.events ++ [Ev.begin w] }

/-- Whether a key currently names a nested bucket. -/
def isSubAt (b : Bucket) (k : Key) : Bool :=
  match lookupEntry b k with
  | some (Entry.sub _) => true
  | _ => false

/-- `node1` inside a read-only transaction once its handle was resolved
and cached by `bucketExists`. -/
def nodeRC : Node := { txn := some false, buck := some [[1]], path := [[1]] }

/-- `rootNode` as a writable `TxUpdate` callback sees it: transaction
held, empty path, no cached handle (an empty path skips pre-resolution). -/
def nodeRootW : Node := { txn := some true, buck := none, path := [] }

/-- The nested-transaction scenario of spec section 4.3: an outer
`TxUpdate` on a fresh root node whose callback performs a `Set`, derives a
child node (which inherits the outer transaction), and runs an inner
`TxUpdate` on that child with an arbitrary callback `g`. -/
def nestedScenario {V σ : Type} (kv : Codec V) (k1 : Key) (v1 : V) (seg : Key)
    (g : Node → Op σ Unit) : Op σ Unit :=
  Node.TxUpdate rootNode (fun n1 s1 =>
    match Node.Set kv n1 k1 v1 s1 with
    | (Except.error e, s2) => (Except.error e, s2)
    | (Except.ok _, s2) =>
      let cs := Node.child n1 [seg] s2
      Node.TxUpdate cs.1 g cs.2)

/-- An instrumented `Each` callback over the closure state
`(count, seen) : Nat × List Nat`: it counts its own invocations, records
the `totalCount` argument it was handed on each invocation, and returns
the error `stop` on exactly its `M`-th invocation. -/
def cbCount (stop : Err) (M : Nat) :
    Nat × List Nat → List Nat → Key → Nat → Option Err × (Nat × List Nat) :=
  fun st w k l =>
    ((if st.1 + 1 = M then some stop else none), (st.1 + 1, st.2 ++ [l]))

end KVDB

namespace KVDB

example : mustKey [] = [0, 0] := by decide
example : mustKey [0] = [0] := by decide
example : mustKey [0, 0] = [0, 0, 0] := by decide
example : mustKey [1, 0] = [1, 0] := by decide
example : bGet [([1], Entry.leaf [7])] [1] = some [7] := rfl
example : getBucketAt [([1], Entry.sub [([2], Entry.leaf [5])])] [[1], [2]] = none := rfl
example : getBucketAt [([1], Entry.sub [([2], Entry.leaf [5])])] [[1]] =
    some [([2], Entry.leaf [5])] := rfl

example : (Node.Set codecId node1 [5] [9] (initSys [] ())).1 = Except.ok () := rfl

example : (Node.Set codecId node1 [5] [9] (initSys [] ())).2.db
    = db1 [([5], Entry.leaf [9])] := rfl

example : (Node.Set codecId node1 [5] [9] (initSys [] ())).2.events
    = [Ev.begin true, Ev.commit] := rfl

example : (Node.Exists node1 [5]
    ((Node.Set codecId node1 [5] [9] (initSys [] ())).2)).1 = true := rfl

example : (Node.Exists node1 [6]
    ((Node.Set codecId node1 [5] [9] (initSys [] ())).2)).1 = false := rfl

example : (Node.Exists node1 [5] (initSys ([] : Bucket) ())).1 = false := rfl

example : (Node.Set codecId node1 [0, 0] [9] (initSys [] ())).2.db
    = db1 [([0, 0, 0], Entry.leaf [9])] := rfl

example : (Node.Exists node1 [0, 0]
    ((Node.Set codecId node1 [0, 0] [9] (initSys [] ())).2)).1 = false := rfl

example : (Node.Delete node1 [5] (initSys ([] : Bucket) ())).1 = Except.ok () := rfl

example : (Node.Delete node1 [5] (initSys ([] : Bucket) ())).2.db = db1 [] := rfl

example :
    (Node.DropExceptLast node1 2
      (initSys (db1 [([1], Entry.leaf [4]), ([2], Entry.leaf [5]), ([3], Entry.leaf [6])])
        ())).2.db
    = db1 [([2], Entry.leaf [5]), ([3], Entry.leaf [6])] := rfl

example :
    (Node.Length node1 []
      (initSys (db1 [([1], Entry.leaf [4]), ([2], Entry.sub [])]) ())).1
    = (2, Except.ok ()) := rfl

example :
    (Node.Each codecId node1 []
      (fun (u : List (Key × Nat)) (w : List Nat) (k : Key) (l : Nat) => (none, u ++ [(k, l)]))
      (initSys (db1 [([1], Entry.leaf [4]), ([2], Entry.sub []), ([3], Entry.leaf [6])])
        [])).2.user
    = [([1], 2), ([3], 2)] := rfl

example :
    (Node.EachKey node1 []
      (fun (u : List (Key × Nat)) (k : Key) (l : Nat) => (none, u ++ [(k, l)]))
      (initSys (db1 [([1], Entry.leaf [4]), ([2], Entry.sub []), ([3], Entry.leaf [6])])
        [])).2.user
    = [([1], 3), ([2], 3), ([3], 3)] := rfl

theorem lookupEntry_db1 (b : Bucket) : lookupEntry (db1 b) [1] = some (Entry.sub b) := by
  simp [db1, lookupEntry]

theorem insertSorted_db1 (b x : Bucket) :
    insertSorted (db1 b) [1] (Entry.sub x) = db1 x := by
  simp [db1, insertSorted, keyLt]

theorem createBucketAt_db1 (b : Bucket) :
    createBucketAt (db1 b) [[1]] = Except.ok (db1 b) := by
  simp [createBucketAt, lookupEntry_db1, insertSorted_db1, Except.map]

theorem getBucketAt_db1 (b : Bucket) : getBucketAt (db1 b) [[1]] = some b := by
  simp [getBucketAt, lookupEntry_db1]

theorem updateBucketAt_db1 (g : Bucket → Except Err Bucket) (b : Bucket) :
    updateBucketAt g (db1 b) [[1]] = (g b).map (fun i => db1 i) := by
  cases hg : g b <;>
    simp [updateBucketAt, lookupEntry_db1, hg, insertSorted_db1, Except.map]

/-- Characterization of a fresh writable transaction on `node1` over a
state whose committed tree already holds the node's bucket: the callback
runs on `nodeW` (handle cached by pre-resolution) over the state with a
fresh writable transaction; a success commits and a failure rolls back. -/
theorem TxUpdate_node1_run {σ α : Type} (f : Node → Op σ α) (s : Sys σ) (b : Bucket)
    (htx : s.tx = none) (hdb : s.db = db1 b) :
    Node.TxUpdate node1 f s =
      (match f nodeW (withTx s true) with
       | (Except.error e, s3) => (Except.error e, sysRollback s3)
       | (Except.ok a, s3) => (Except.ok a, sysCommit s3)) := by
  simp only [Node.TxUpdate, node1, Node.doTx, Node.bucketR, withTx, hdb,
    createBucketAt_db1, nodeW]
  rfl

/-- Characterization of a fresh read-only transaction on `node1`: the
callback runs on `nodeR` over the state with a fresh read-only
transaction, and the transaction is closed by a rollback whatever the
outcome. -/
theorem TxView_node1_run {σ α : Type} (f : Node → Op σ α) (s : Sys σ)
    (htx : s.tx = none) :
    Node.TxView node1 f s =
      (match f nodeR (withTx s false) with
       | (Except.error e, s3) => (Except.error e, sysRollback s3)
       | (Except.ok a, s3) => (Except.ok a, sysRollback s3)) := by
  simp only [Node.TxView, node1, Node.doTx, withTx, nodeR]
  rfl

theorem isLeafE_true {k : Key} {e : Entry} (h : isLeafE (k, e) = true) :
    ∃ v, e = Entry.leaf v := by
  cases e with
  | leaf v => exact ⟨v, rfl⟩
  | sub b => simp [isLeafE] at h

/-- On a bucket with no nested sub-buckets, the backward cursor walk keeps
the first `K` entries met and deletes every further one at the cursor,
collecting no bucket keys. -/
theorem dropWalk_of_all_leaves (l : List (Key × Entry)) (K : Nat)
    (h : bucketAllLeaves l = true) :
    dropWalk (K : Int) l = (l.take K, []) := by
  induction l generalizing K with
  | nil => cases K <;> simp [dropWalk]
  | cons p rest ih =>
    obtain ⟨k, e⟩ := p
    have hp : isLeafE (k, e) = true := by
      simp [bucketAllLeaves, List.all_cons] at h
      exact h.1
    have hrest : bucketAllLeaves rest = true := by
      simp [bucketAllLeaves, List.all_cons] at h
      simpa [bucketAllLeaves] using h.2
    obtain ⟨v, rfl⟩ := isLeafE_true hp
    cases K with
    | zero =>
      have h0 : ¬((0 : Int) < 0) := by omega
      simp only [Nat.cast_zero, dropWalk, if_neg h0]
      have := ih 0 hrest
      simp only [Nat.cast_zero] at this
      simp [this]
    | succ m =>
      have h1 : (0 : Int) < (m + 1 : Nat) := by positivity
      have h2 : ((m + 1 : Nat) : Int) - 1 = (m : Nat) := by push_cast; ring
      simp only [dropWalk, if_pos h1, h2, ih m hrest, List.take_succ_cons]

theorem reverse_take_reverse {α : Type} (l : List α) (K : Nat) :
    (l.reverse.take K).reverse = l.drop (l.length - K) := by
  rw [← List.rtake_eq_reverse_take_reverse]
  rfl

/-- In a sorted bucket, every key of the dropped prefix is strictly below
every key of the kept suffix. -/
theorem sortedKeysB_take_drop (b : Bucket) (m : Nat) (hs : sortedKeysB b = true) :
    ∀ x ∈ b.take m, ∀ y ∈ b.drop m, keyLt x.1 y.1 = true := by
  induction b generalizing m with
  | nil => simp
  | cons p rest ih =>
    have hs' : ((rest.all fun y => keyLt p.1 y.1) && sortedKeysB rest) = true := hs
    obtain ⟨h1, hrest⟩ := Bool.and_eq_true_iff.mp hs'
    have hall : ∀ y ∈ rest, keyLt p.1 y.1 = true := fun y hy =>
      List.all_eq_true.mp h1 y hy
    cases m with
    | zero => simp
    | succ m =>
      intro x hx y hy
      simp only [List.take_succ_cons, List.mem_cons] at hx
      simp only [List.drop_succ_cons] at hy
      rcases hx with rfl | hx
      · exact hall y (List.drop_subset m rest hy)
      · exact ih m hrest x hx y hy

theorem bucketR_nodeW {σ : Type} (s : Sys σ) :
    Node.bucketR nodeW s = (Except.ok (nodeW, [[1]]), s) := rfl

/-- C4: `DropExceptLast(K)` on a bucket of `N` sorted leaf entries (no
nested buckets) succeeds, commits, and leaves exactly the suffix of the
`K` lexicographically greatest entries, i.e. it deletes the `N - K`
lexicographically smallest ones; when `N ≤ K` it deletes nothing (the
final conjunct: every dropped entry's key is strictly below every kept
entry's key). -/
theorem c4_dropExceptLast_keeps_last (b : Bucket) (K : Nat)
    (hs : sortedKeysB b = true) (hl : bucketAllLeaves b = true) :
    Node.DropExceptLast node1 (K : Int) (initSys (db1 b) ()) =
      (Except.ok (),
       { db := db1 (b.drop (b.length - K)), tx := none,
         events := [Ev.begin true, Ev.commit], user := () }) ∧
    (b.length ≤ K →
      (Node.DropExceptLast node1 (K : Int) (initSys (db1 b) ())).2.db = db1 b) ∧
    (∀ x ∈ b.take (b.length - K), ∀ y ∈ b.drop (b.length - K),
      keyLt x.1 y.1 = true) := by
  have hrev : bucketAllLeaves b.reverse = true := by
    simpa [bucketAllLeaves] using hl
  have hwalk := dropWalk_of_all_leaves b.reverse K hrev
  have hmain : Node.DropExceptLast node1 (K : Int) (initSys (db1 b) ()) =
      (Except.ok (),
       { db := db1 (b.drop (b.length - K)), tx := none,
         events := [Ev.begin true, Ev.commit], user := () }) := by
    rw [Node.DropExceptLast, TxUpdate_node1_run _ _ b rfl rfl]
    simp only [bucketR_nodeW, txContents, txRoot, withTx, initSys, getBucketAt_db1,
      Option.getD_some, hwalk, List.foldl_nil, reverse_take_reverse,
      updateBucketAt_db1, Except.map, sysCommit, List.cons_append,
      List.nil_append]
  refine ⟨hmain, ?_, sortedKeysB_take_drop b _ hs⟩
  intro hK
  rw [hmain]
  simp [Nat.sub_eq_zero_of_le hK]

/-- C4 witness. -/
theorem c4_dropExceptLast_keeps_last_witness :
    Node.DropExceptLast node1 ((2 : Nat) : Int)
        (initSys (db1 [([1], Entry.leaf [4]), ([2], Entry.leaf [5]),
                       ([3], Entry.leaf [6])]) ()) =
      (Except.ok (),
       { db := db1 ([([1], Entry.leaf [4]), ([2], Entry.leaf [5]),
                     ([3], Entry.leaf [6])].drop
                 ([([1], Entry.leaf [4]), ([2], Entry.leaf [5]),
                   ([3], Entry.leaf [6])].length - 2)),
         tx := none, events := [Ev.begin true, Ev.commit], user := () }) :=
  (c4_dropExceptLast_keeps_last
    [([1], Entry.leaf [4]), ([2], Entry.leaf [5]), ([3], Entry.leaf [6])] 2
    (by decide) (by decide)).1

theorem txGet_node1 {σ : Type} (s : Sys σ) (b : Bucket) (k : Key)
    (h : txRoot s = db1 b) : txGet [[1]] k s = bGet b k := by
  simp [txGet, h, getBucketAt_db1]

theorem txPut_node1 {σ : Type} (s : Sys σ) (b : Bucket) (k : Key) (v : List Nat)
    (h : s.tx = some { writable := true, root := db1 b }) :
    txPut [[1]] k v s =
      (match bPut b k v with
       | Except.ok nb =>
         (Except.ok (), { s with tx := some { writable := true, root := db1 nb } })
       | Except.error e => (Except.error e, s)) := by
  simp only [txPut, h, updateBucketAt_db1]
  cases bPut b k v <;> simp [Except.map]

theorem txDelete_node1 {σ : Type} (s : Sys σ) (b : Bucket) (k : Key)
    (h : s.tx = some { writable := true, root := db1 b }) :
    txDelete [[1]] k s =
      (match bDelete b k with
       | Except.ok nb =>
         (Except.ok (), { s with tx := some { writable := true, root := db1 nb } })
       | Except.error e => (Except.error e, s)) := by
  simp only [txDelete, h, updateBucketAt_db1]
  cases bDelete b k <;> simp [Except.map]

/-- C8: `SetIfNone` on a key whose sanitized form already holds a stored
value succeeds and leaves the committed tree — that key's value and every
other entry — unchanged; on a key whose sanitized form holds no stored
value, `SetIfNone` produces exactly the same outcome and state as `Set`. -/
theorem c8_setIfNone_vs_set {V : Type} (kv : Codec V) (b : Bucket) (k : Key) (v : V)
    (bs : List Nat) (hm : kv.marshal v = Except.ok bs) :
    (bGet b (mustKey k) ≠ none →
      Node.SetIfNone kv node1 k v (initSys (db1 b) ()) =
        (Except.ok (),
         { db := db1 b, tx := none,
           events := [Ev.begin true, Ev.commit], user := () })) ∧
    (bGet b (mustKey k) = none →
      Node.SetIfNone kv node1 k v (initSys (db1 b) ()) =
        Node.Set kv node1 k v (initSys (db1 b) ())) := by
  have hg : txGet [[1]] (mustKey k) (withTx (initSys (db1 b) ()) true)
      = bGet b (mustKey k) := txGet_node1 _ b _ rfl
  constructor
  · intro hne
    obtain ⟨w, hw⟩ := Option.ne_none_iff_exists'.mp hne
    simp only [Node.SetIfNone, hm]
    rw [TxUpdate_node1_run _ _ b rfl rfl]
    simp only [bucketR_nodeW, hg, hw]
    simp [sysCommit, withTx, initSys]
  · intro hnone
    simp only [Node.SetIfNone, Node.Set, hm]
    rw [TxUpdate_node1_run _ _ b rfl rfl, TxUpdate_node1_run _ _ b rfl rfl]
    simp only [bucketR_nodeW, hg, hnone]

/-- C8 witness. -/
theorem c8_setIfNone_vs_set_witness :
    Node.SetIfNone codecId node1 [5] [9]
        (initSys (db1 [([5], Entry.leaf [7])]) ()) =
      (Except.ok (),
       { db := db1 [([5], Entry.leaf [7])], tx := none,
         events := [Ev.begin true, Ev.commit], user := () }) :=
  (c8_setIfNone_vs_set codecId [([5], Entry.leaf [7])] [5] [9] [9] rfl).1
    (by decide)

theorem keyLt_irrefl (k : Key) : keyLt k k = false := by
  induction k with
  | nil => rfl
  | cons a as ih => simp [keyLt, ih]

theorem lookupEntry_none_of_all_gt (l : Bucket) (k : Key)
    (h : ∀ y ∈ l, keyLt k y.1 = true) : lookupEntry l k = none := by
  induction l with
  | nil => rfl
  | cons p rest ih =>
    obtain ⟨k1, e1⟩ := p
    have hne : ¬k = k1 := by
      intro hkk
      have := h (k1, e1) (by simp)
      rw [← hkk] at this
      rw [keyLt_irrefl] at this
      exact Bool.false_ne_true this
    simp only [lookupEntry, if_neg hne]
    exact ih fun y hy => h y (by simp [hy])

theorem lookupEntry_eraseKey_self (b : Bucket) (k : Key)
    (hs : sortedKeysB b = true) : lookupEntry (eraseKey b k) k = none := by
  induction b with
  | nil => rfl
  | cons p rest ih =>
    obtain ⟨k1, e1⟩ := p
    have hs' : ((rest.all fun y => keyLt k1 y.1) && sortedKeysB rest) = true := hs
    obtain ⟨h1, hrest⟩ := Bool.and_eq_true_iff.mp hs'
    by_cases hk : k = k1
    · subst hk
      simp only [eraseKey, if_pos rfl]
      exact lookupEntry_none_of_all_gt rest k fun y hy => List.all_eq_true.mp h1 y hy
    · simp only [eraseKey, if_neg hk, lookupEntry, if_neg hk]
      exact ih hrest

theorem eraseKey_of_lookup_none (b : Bucket) (k : Key)
    (h : lookupEntry b k = none) : eraseKey b k = b := by
  induction b with
  | nil => rfl
  | cons p rest ih =>
    obtain ⟨k1, e1⟩ := p
    by_cases hk : k = k1
    · simp [lookupEntry, if_pos hk] at h
    · simp only [lookupEntry, if_neg hk] at h
      simp only [eraseKey, if_neg hk, ih h]

theorem bDelete_not_sub (b : Bucket) (k : Key) (h : isSubAt b k = false) :
    bDelete b k = Except.ok (eraseKey b k) := by
  unfold bDelete
  unfold isSubAt at h
  cases hl : lookupEntry b k with
  | none => rfl
  | some e =>
    cases e with
    | leaf v => rfl
    | sub x => rw [hl] at h; exact absurd h (by simp)

/-- The variant of `TxUpdate_node1_run` over a committed tree in which the
node's bucket does not exist yet: pre-resolution creates the empty bucket
chain inside the transaction. -/
theorem TxUpdate_node1_run_empty {σ α : Type} (f : Node → Op σ α) (s : Sys σ)
    (htx : s.tx = none) (hdb : s.db = []) :
    Node.TxUpdate node1 f s =
      (match f nodeW { s with tx := some { writable := true, root := db1 [] },
                              events := s.events ++ [Ev.begin true] } with
       | (Except.error e, s3) => (Except.error e, sysRollback s3)
       | (Except.ok a, s3) => (Except.ok a, sysCommit s3)) := by
  simp only [Node.TxUpdate, node1, Node.doTx, Node.bucketR, hdb, nodeW]
  rfl

theorem bucketExistsR_nodeR {σ : Type} (s : Sys σ) (b : Bucket)
    (h : s.tx = some { writable := false, root := db1 b }) :
    Node.bucketExistsR nodeR s = ((true, nodeRC), s) := by
  simp [Node.bucketExistsR, nodeR, nodeRC, h, getBucketAt_db1]

theorem bucketR_nodeRC {σ : Type} (s : Sys σ) :
    Node.bucketR nodeRC s = (Except.ok (nodeRC, [[1]]), s) := rfl

/-- C9 counterexample: over an empty store (the node's bucket does not
exist), `Delete("")` returns success — but the stored state is NOT
unchanged: transaction pre-resolution created the empty bucket and the
commit persisted it; and after this successful `Delete("")`, `Exists("")`
returns true, not false, because an empty key asks for the bucket's own
presence. -/
theorem c9_cex_delete_changes_state :
    (Node.Delete node1 [] (initSys [] ())).1 = Except.ok () ∧
    (Node.Delete node1 [] (initSys [] ())).2.db = db1 [] ∧
    (Node.Exists node1 [] ((Node.Delete node1 [] (initSys [] ())).2)).1 = true :=
  ⟨rfl, rfl, rfl⟩

/-- C9 (amended): `Delete` is idempotent and never errors on absence, with
two qualifications forced by the code.  (a) `Delete(k)` on a Node whose
bucket does not exist returns success, but as a side effect of writable
transaction pre-resolution it creates and commits the empty bucket chain.
(b) `Delete(k)` on an existing bucket that lacks the sanitized key returns
success with the stored entries unchanged.  (c) After a successful
`Delete(k)`, `Exists(k)` returns false for every non-empty key that
sanitization leaves unchanged (for `k = ""` the existence check reports
the bucket's own presence instead, per the counterexample). -/
theorem c9_delete_idempotent (b : Bucket) (k : Key) :
    (Node.Delete node1 k (initSys [] ()) =
      (Except.ok (),
       { db := db1 [], tx := none,
         events := [Ev.begin true, Ev.commit], user := () })) ∧
    (lookupEntry b (mustKey k) = none →
      Node.Delete node1 k (initSys (db1 b) ()) =
        (Except.ok (),
         { db := db1 b, tx := none,
           events := [Ev.begin true, Ev.commit], user := () })) ∧
    (sortedKeysB b = true → isSubAt b k = false → mustKey k = k → k ≠ [] →
      (Node.Delete node1 k (initSys (db1 b) ())).1 = Except.ok () ∧
      (Node.Exists node1 k ((Node.Delete node1 k (initSys (db1 b) ())).2)).1 = false) := by
  refine ⟨?_, ?_, ?_⟩
  · simp only [Node.Delete]
    rw [TxUpdate_node1_run_empty _ _ rfl rfl]
    simp only [bucketR_nodeW]
    rw [txDelete_node1 _ [] (mustKey k) rfl]
    simp only [bDelete, lookupEntry, eraseKey]
    simp [sysCommit, initSys]
  · intro hnone
    have hsub : isSubAt b (mustKey k) = false := by
      unfold isSubAt
      rw [hnone]
    simp only [Node.Delete]
    rw [TxUpdate_node1_run _ _ b rfl rfl]
    simp only [bucketR_nodeW]
    rw [txDelete_node1 _ b (mustKey k) rfl, bDelete_not_sub b (mustKey k) hsub,
      eraseKey_of_lookup_none b (mustKey k) hnone]
    simp [sysCommit, withTx, initSys]
  · intro hs hsub hmk hne
    have hdel : Node.Delete node1 k (initSys (db1 b) ()) =
        (Except.ok (),
         { db := db1 (eraseKey b k), tx := none,
           events := [Ev.begin true, Ev.commit], user := () }) := by
      simp only [Node.Delete]
      rw [TxUpdate_node1_run _ _ b rfl rfl]
      simp only [bucketR_nodeW]
      rw [hmk, txDelete_node1 _ b k rfl, bDelete_not_sub b k hsub]
      simp [sysCommit, withTx, initSys]
    refine ⟨by rw [hdel], ?_⟩
    rw [hdel]
    simp only [Node.Exists]
    rw [TxView_node1_run _ _ rfl]
    rw [bucketExistsR_nodeR _ (eraseKey b k) rfl]
    simp only [if_pos, bucketR_nodeRC]
    have hg : txGet [[1]] k
        (withTx { db := db1 (eraseKey b k), tx := none,
                  events := [Ev.begin true, Ev.commit], user := () } false)
        = bGet (eraseKey b k) k := txGet_node1 _ (eraseKey b k) _ rfl
    rw [hg]
    have hbg : bGet (eraseKey b k) k = none := by
      unfold bGet
      rw [lookupEntry_eraseKey_self b k hs]
    rw [hbg]
    simp [hne]

/-- C9 witness. -/
theorem c9_delete_idempotent_witness :
    (Node.Delete node1 [5] (initSys [] ()) =
      (Except.ok (),
       { db := db1 [], tx := none,
         events := [Ev.begin true, Ev.commit], user := () })) ∧
    (Node.Delete node1 [5] (initSys (db1 [([6], Entry.leaf [1])]) ()) =
      (Except.ok (),
       { db := db1 [([6], Entry.leaf [1])], tx := none,
         events := [Ev.begin true, Ev.commit], user := () })) ∧
    (Node.Exists node1 [5]
      ((Node.Delete node1 [5] (initSys (db1 [([5], Entry.leaf [1])]) ())).2)).1
      = false :=
  ⟨(c9_delete_idempotent [] [5]).1,
   (c9_delete_idempotent [([6], Entry.leaf [1])] [5]).2.1 rfl,
   ((c9_delete_idempotent [([5], Entry.leaf [1])] [5]).2.2
     (by decide) (by decide) (by decide) (by decide)).2⟩

theorem codecId_unmarshal (v : List Nat) : codecId.unmarshal v = Except.ok v := rfl

theorem countLeaves_cons_leaf (k : Key) (v : List Nat) (rest : Bucket) :
    countLeaves ((k, Entry.leaf v) :: rest) = countLeaves rest + 1 := by
  simp [countLeaves, List.countP_cons, isLeafE]

theorem countLeaves_cons_sub (k : Key) (x : Bucket) (rest : Bucket) :
    countLeaves ((k, Entry.sub x) :: rest) = countLeaves rest := by
  simp [countLeaves, List.countP_cons, isLeafE]

theorem bucketR_nodeR {σ : Type} (s : Sys σ) (b : Bucket)
    (h : s.tx = some { writable := false, root := db1 b }) :
    Node.bucketR nodeR s = (Except.ok (nodeRC, [[1]]), s) := by
  simp [Node.bucketR, nodeR, nodeRC, h, getBucketAt_db1]

theorem txContents_node1 {σ : Type} (s : Sys σ) (b : Bucket)
    (h : txRoot s = db1 b) : txContents [[1]] s = b := by
  simp [txContents, h, getBucketAt_db1]

/-- The instrumented loop when the `M`-th invocation never happens: every
leaf is visited, each visit records the announced total `L`, and the loop
ends successfully. -/
theorem eachLoop_cbCount_nofire (stop : Err) (M L : Nat) (l : List (Key × Entry))
    (s : Sys (Nat × List Nat)) (c : Nat) (ls : List Nat) (hu : s.user = (c, ls))
    (h : M ≤ c ∨ c + countLeaves l < M) :
    eachLoop codecId (cbCount stop M) L l s =
      (Except.ok (),
       { s with user := (c + countLeaves l, ls ++ List.replicate (countLeaves l) L) }) := by
  induction l generalizing s c ls with
  | nil =>
    simp only [eachLoop, countLeaves, List.countP_nil, Nat.add_zero,
      List.replicate_zero, List.append_nil]
    rw [← hu]
  | cons p rest ih =>
    obtain ⟨k, e⟩ := p
    cases e with
    | sub x =>
      rw [countLeaves_cons_sub] at h ⊢
      exact ih s c ls hu h
    | leaf v =>
      rw [countLeaves_cons_leaf] at h ⊢
      have hne : ¬(c + 1 = M) := by omega
      simp only [eachLoop, codecId_unmarshal, cbCount, hu, if_neg hne]
      have hrec := ih { s with user := (c + 1, ls ++ [L]) } (c + 1) (ls ++ [L]) rfl
        (by omega)
      rw [hrec]
      have harr : (c + 1) + countLeaves rest = c + (countLeaves rest + 1) := by omega
      have hrep : (ls ++ [L]) ++ List.replicate (countLeaves rest) L
          = ls ++ List.replicate (countLeaves rest + 1) L := by
        simp [List.replicate_succ]
      dsimp only
      rw [harr, hrep]

/-- The instrumented loop when the `M`-th invocation happens within the
leaves of `l`: the loop performs exactly `M - c` further invocations, each
recording the announced total `L`, and then resolves successfully when the
returned error is the break sentinel, or aborts with it otherwise. -/
theorem eachLoop_cbCount_fire (stop : Err) (M L : Nat) (l : List (Key × Entry))
    (s : Sys (Nat × List Nat)) (c : Nat) (ls : List Nat) (hu : s.user = (c, ls))
    (h1 : c < M) (h2 : M ≤ c + countLeaves l) :
    eachLoop codecId (cbCount stop M) L l s =
      ((if stop = Err.eachBreak then Except.ok () else Except.error stop),
       { s with user := (M, ls ++ List.replicate (M - c) L) }) := by
  induction l generalizing s c ls with
  | nil =>
    rw [countLeaves] at h2
    simp at h2
    omega
  | cons p rest ih =>
    obtain ⟨k, e⟩ := p
    cases e with
    | sub x =>
      rw [countLeaves_cons_sub] at h2
      exact ih s c ls hu h1 h2
    | leaf v =>
      rw [countLeaves_cons_leaf] at h2
      by_cases hM : c + 1 = M
      · simp only [eachLoop, codecId_unmarshal, cbCount, hu, if_pos hM]
        have hrep : List.replicate (M - c) L = [L] := by
          have hmc : M - c = 1 := by omega
          rw [hmc]
          rfl
        rw [hrep, hM]
        by_cases hstop : stop = Err.eachBreak
        · simp [hstop]
        · simp [hstop]
      · simp only [eachLoop, codecId_unmarshal, cbCount, hu, if_neg hM]
        have hrec := ih { s with user := (c + 1, ls ++ [L]) } (c + 1) (ls ++ [L]) rfl
          (by omega) (by omega)
        rw [hrec]
        have hrep : (ls ++ [L]) ++ List.replicate (M - (c + 1)) L
            = ls ++ List.replicate (M - c) L := by
          have hmc : M - c = (M - (c + 1)) + 1 := by omega
          rw [hmc]
          simp [List.replicate_succ]
        dsimp only
        rw [hrep]

/-- C6: over a bucket holding `N` leaf entries (sub-buckets excluded from
the count), `Each` (i) reports `totalCount = N` to every one of its `N`
invocations when the callback never stops early; (ii) stops after exactly
`M` invocations and returns success when the callback returns the break
sentinel on invocation `M < N` (every invocation again seeing
`totalCount = N`); (iii) aborts with any other callback error.  The
instrumented callback `cbCount` counts its invocations and records the
announced total of each one in the closure state. -/
theorem c6_each_count_break_error (b : Bucket) (M : Nat) (e : Err) :
    (Node.Each codecId node1 [] (cbCount Err.eachBreak (countLeaves b + 1))
        (initSys (db1 b) (0, [])) =
      (Except.ok (),
       { db := db1 b, tx := none, events := [Ev.begin false, Ev.rollback],
         user := (countLeaves b,
                  List.replicate (countLeaves b) (countLeaves b)) })) ∧
    (0 < M → M < countLeaves b →
      Node.Each codecId node1 [] (cbCount Err.eachBreak M)
          (initSys (db1 b) (0, [])) =
        (Except.ok (),
         { db := db1 b, tx := none, events := [Ev.begin false, Ev.rollback],
           user := (M, List.replicate M (countLeaves b)) })) ∧
    (0 < M → M ≤ countLeaves b → e ≠ Err.eachBreak →
      Node.Each codecId node1 [] (cbCount e M) (initSys (db1 b) (0, [])) =
        (Except.error e,
         { db := db1 b, tx := none, events := [Ev.begin false, Ev.rollback],
           user := (M, List.replicate M (countLeaves b)) })) := by
  have hb : Node.bucketR nodeR
      (withTx (initSys (db1 b) ((0 : Nat), ([] : List Nat))) false)
      = (Except.ok (nodeRC, [[1]]),
         withTx (initSys (db1 b) (0, [])) false) := bucketR_nodeR _ b rfl
  have hc : txContents [[1]]
      (withTx (initSys (db1 b) ((0 : Nat), ([] : List Nat))) false) = b :=
    txContents_node1 _ b rfl
  refine ⟨?_, ?_, ?_⟩
  · simp only [Node.Each]
    rw [TxView_node1_run _ _ rfl]
    simp only [hb, hc]
    rw [eachLoop_cbCount_nofire Err.eachBreak (countLeaves b + 1) (countLeaves b)
      b _ 0 [] rfl (Or.inr (by omega))]
    simp [sysRollback, withTx, initSys]
  · intro h1 h2
    simp only [Node.Each]
    rw [TxView_node1_run _ _ rfl]
    simp only [hb, hc]
    rw [eachLoop_cbCount_fire Err.eachBreak M (countLeaves b) b _ 0 [] rfl h1
      (by omega)]
    simp [sysRollback, withTx, initSys]
  · intro h1 h2 hne
    simp only [Node.Each]
    rw [TxView_node1_run _ _ rfl]
    simp only [hb, hc]
    rw [eachLoop_cbCount_fire e M (countLeaves b) b _ 0 [] rfl h1 (by omega)]
    simp [sysRollback, withTx, initSys, hne]

/-- C6 witness. -/
theorem c6_each_count_break_error_witness :
    (Node.Each codecId node1 []
        (cbCount Err.eachBreak
          (countLeaves [([1], Entry.leaf [2]), ([2], Entry.sub []),
                        ([3], Entry.leaf [4]), ([4], Entry.leaf [6])] + 1))
        (initSys (db1 [([1], Entry.leaf [2]), ([2], Entry.sub []),
                       ([3], Entry.leaf [4]), ([4], Entry.leaf [6])]) (0, [])) =
      (Except.ok (),
       { db := db1 [([1], Entry.leaf [2]), ([2], Entry.sub []),
                    ([3], Entry.leaf [4]), ([4], Entry.leaf [6])],
         tx := none, events := [Ev.begin false, Ev.rollback],
         user := (3, [3, 3, 3]) })) ∧
    (Node.Each codecId node1 [] (cbCount Err.eachBreak 2)
        (initSys (db1 [([1], Entry.leaf [2]), ([2], Entry.sub []),
                       ([3], Entry.leaf [4]), ([4], Entry.leaf [6])]) (0, [])) =
      (Except.ok (),
       { db := db1 [([1], Entry.leaf [2]), ([2], Entry.sub []),
                    ([3], Entry.leaf [4]), ([4], Entry.leaf [6])],
         tx := none, events := [Ev.begin false, Ev.rollback],
         user := (2, [3, 3]) })) ∧
    (Node.Each codecId node1 [] (cbCount (Err.user 7) 2)
        (initSys (db1 [([1], Entry.leaf [2]), ([2], Entry.sub []),
                       ([3], Entry.leaf [4]), ([4], Entry.leaf [6])]) (0, [])) =
      (Except.error (Err.user 7),
       { db := db1 [([1], Entry.leaf [2]), ([2], Entry.sub []),
                    ([3], Entry.leaf [4]), ([4], Entry.leaf [6])],
         tx := none, events := [Ev.begin false, Ev.rollback],
         user := (2, [3, 3]) })) :=
  ⟨(c6_each_count_break_error [([1], Entry.leaf [2]), ([2], Entry.sub []),
      ([3], Entry.leaf [4]), ([4], Entry.leaf [6])] 2 (Err.user 7)).1,
   (c6_each_count_break_error [([1], Entry.leaf [2]), ([2], Entry.sub []),
      ([3], Entry.leaf [4]), ([4], Entry.leaf [6])] 2 (Err.user 7)).2.1
     (by decide) (by decide),
   (c6_each_count_break_error [([1], Entry.leaf [2]), ([2], Entry.sub []),
      ([3], Entry.leaf [4]), ([4], Entry.leaf [6])] 2 (Err.user 7)).2.2
     (by decide) (by decide) (by decide)⟩

theorem bPut_not_sub (b : Bucket) (k : Key) (v : List Nat)
    (h : isSubAt b k = false) :
    bPut b k v = Except.ok (insertSorted b k (Entry.leaf v)) := by
  unfold bPut
  unfold isSubAt at h
  cases hl : lookupEntry b k with
  | none => rfl
  | some e =>
    cases e with
    | leaf w => rfl
    | sub x => rw [hl] at h; exact absurd h (by simp)

theorem TxUpdate_root_run {σ α : Type} (f : Node → Op σ α) (s : Sys σ) :
    Node.TxUpdate rootNode f s =
      (match f nodeRootW (withTx s true) with
       | (Except.error e, s3) => (Except.error e, sysRollback s3)
       | (Except.ok a, s3) => (Except.ok a, sysCommit s3)) := by
  simp only [Node.TxUpdate, rootNode, Node.doTx, withTx, nodeRootW]
  rfl

/-- A node that already holds a writable transaction reuses it: the
callback runs directly, with no begin, commit or rollback of its own. -/
theorem TxUpdate_reuse {σ α : Type} (n : Node) (f : Node → Op σ α) (s : Sys σ)
    (h : n.txn = some true) :
    Node.TxUpdate n f s = f n s := by
  simp only [Node.TxUpdate, Node.doTx, h]

theorem Set_rootW {V σ : Type} (kv : Codec V) (k : Key) (v : V) (bs : List Nat)
    (d r : Bucket) (ev : List Ev) (u : σ)
    (hm : kv.marshal v = Except.ok bs)
    (hput : isSubAt r (mustKey k) = false) :
    Node.Set kv nodeRootW k v ⟨d, some ⟨true, r⟩, ev, u⟩ =
      (Except.ok (),
       ⟨d, some ⟨true, insertSorted r (mustKey k) (Entry.leaf bs)⟩, ev, u⟩) := by
  have hb : bPut r (mustKey k) bs
      = Except.ok (insertSorted r (mustKey k) (Entry.leaf bs)) :=
    bPut_not_sub r (mustKey k) bs hput
  simp only [Node.Set, hm, Node.TxUpdate, nodeRootW, Node.doTx, Node.bucketR,
    createBucketAt, txPut, updateBucketAt, hb]
  simp [updateBucketAt, hb]

/-- Deriving a child of the root node inside a writable transaction:
resolution creates the child bucket eagerly and caches the handle; a
resolution failure is swallowed, leaving the cache empty.  Either way the
child inherits the transaction and the committed tree, the events and the
closure state are untouched. -/
theorem child_rootW_run {σ : Type} (seg : Key) (d r : Bucket) (ev : List Ev) (u : σ) :
    Node.child nodeRootW [seg] (⟨d, some ⟨true, r⟩, ev, u⟩ : Sys σ) =
      (match createBucketAt r [seg] with
       | Except.ok root1 =>
         (⟨some true, some [seg], [seg]⟩, ⟨d, some ⟨true, root1⟩, ev, u⟩)
       | Except.error _ =>
         (⟨some true, none, [seg]⟩, ⟨d, some ⟨true, r⟩, ev, u⟩)) := by
  cases hcb : createBucketAt r [seg] with
  | ok root1 => simp [Node.child, Node.FromPath, Node.bucketR, nodeRootW, hcb]
  | error e0 => simp [Node.child, Node.FromPath, Node.bucketR, nodeRootW, hcb]

/-- C5: nested `TxUpdate` calls on one Node chain — an outer `TxUpdate`
whose callback writes through `Set`, derives a child node inheriting the
active transaction, and runs an inner `TxUpdate` with callback `g` — make
the underlying transaction commit exactly once, by the outermost call:
when everything succeeds the event trace gains exactly `[begin, commit]`;
when the inner callback fails, the outermost call rolls the whole
transaction back (trace gains `[begin, rollback]`) and none of the writes,
inner or outer, reach the committed tree.  The hypothesis on `g` says it
behaves like the model's own operations: it works through the transaction,
touching neither the committed tree nor the event trace directly. -/
theorem c5_nested_txupdate_commit_once {V σ : Type} (kv : Codec V) (k1 : Key)
    (v1 : V) (seg : Key) (g : Node → Op σ Unit) (s : Sys σ) (bs : List Nat)
    (htx : s.tx = none)
    (hm : kv.marshal v1 = Except.ok bs)
    (hput : isSubAt s.db (mustKey k1) = false)
    (hg : ∀ n' s', ((g n' s').2).db = s'.db ∧ ((g n' s').2).events = s'.events) :
    ((nestedScenario kv k1 v1 seg g s).1 = Except.ok () →
      (nestedScenario kv k1 v1 seg g s).2.events
        = s.events ++ [Ev.begin true, Ev.commit]) ∧
    (∀ e, (nestedScenario kv k1 v1 seg g s).1 = Except.error e →
      (nestedScenario kv k1 v1 seg g s).2.events
          = s.events ++ [Ev.begin true, Ev.rollback] ∧
      (nestedScenario kv k1 v1 seg g s).2.db = s.db) := by
  obtain ⟨d, tx0, ev, u⟩ := s
  simp only at htx hput ⊢
  subst htx
  have hrun : ∃ (child : Node) (s4 : Sys σ),
      child.txn = some true ∧ s4.db = d ∧ s4.events = ev ++ [Ev.begin true] ∧
      (∀ a s5, g child s4 = (Except.ok a, s5) →
        nestedScenario kv k1 v1 seg g ⟨d, none, ev, u⟩ = (Except.ok a, sysCommit s5)) ∧
      (∀ e s5, g child s4 = (Except.error e, s5) →
        nestedScenario kv k1 v1 seg g ⟨d, none, ev, u⟩
          = (Except.error e, sysRollback s5)) := by
    simp only [nestedScenario]
    rw [TxUpdate_root_run]
    simp only [withTx]
    rw [Set_rootW kv k1 v1 bs d d (ev ++ [Ev.begin true]) u hm hput]
    dsimp only
    rw [child_rootW_run]
    cases hcb : createBucketAt (insertSorted d (mustKey k1) (Entry.leaf bs)) [seg] with
    | ok root1 =>
      simp only [hcb]
      refine ⟨⟨some true, some [seg], [seg]⟩,
        ⟨d, some ⟨true, root1⟩, ev ++ [Ev.begin true], u⟩, rfl, rfl, rfl, ?_, ?_⟩
      · intro a s5 hsp
        rw [TxUpdate_reuse _ _ _ rfl, hsp]
      · intro e s5 hsp
        rw [TxUpdate_reuse _ _ _ rfl, hsp]
    | error e0 =>
      simp only [hcb]
      refine ⟨⟨some true, none, [seg]⟩,
        ⟨d, some ⟨true, insertSorted d (mustKey k1) (Entry.leaf bs)⟩,
         ev ++ [Ev.begin true], u⟩, rfl, rfl, rfl, ?_, ?_⟩
      · intro a s5 hsp
        rw [TxUpdate_reuse _ _ _ rfl, hsp]
      · intro e s5 hsp
        rw [TxUpdate_reuse _ _ _ rfl, hsp]
  obtain ⟨child, s4, hct, hs4d, hs4e, hok, herr⟩ := hrun
  obtain ⟨hgd, hge⟩ := hg child s4
  cases hres : g child s4 with
  | mk res s5 =>
    rw [hres] at hgd hge
    dsimp only at hgd hge
    cases res with
    | ok a =>
      have hsc := hok a s5 hres
      cases a
      constructor
      · intro _
        rw [hsc]
        simp [sysCommit, hge, hs4e, List.append_assoc]
      · intro e he
        rw [hsc] at he
        simp at he
    | error e0 =>
      have hsc := herr e0 s5 hres
      constructor
      · intro hok2
        rw [hsc] at hok2
        simp at hok2
      · intro e he
        refine ⟨?_, ?_⟩
        · rw [hsc]
          simp [sysRollback, hge, hs4e, List.append_assoc]
        · rw [hsc]
          simp [sysRollback, hgd, hs4d]

/-- C5 witness. -/
theorem c5_nested_txupdate_commit_once_witness :
    (nestedScenario codecId [1] [9] [2] (fun _ s => (Except.ok (), s))
        (initSys [] ())).2.events = [Ev.begin true, Ev.commit] ∧
    (nestedScenario codecId [1] [9] [2]
        (fun _ s => (Except.error (Err.user 3), s))
        (initSys [([7], Entry.leaf [1])] ())).2.events
      = [Ev.begin true, Ev.rollback] ∧
    (nestedScenario codecId [1] [9] [2]
        (fun _ s => (Except.error (Err.user 3), s))
        (initSys [([7], Entry.leaf [1])] ())).2.db
      = [([7], Entry.leaf [1])] :=
  ⟨(c5_nested_txupdate_commit_once codecId [1] [9] [2]
      (fun _ s => (Except.ok (), s)) (initSys [] ()) [9] rfl rfl rfl
      (fun _ _ => ⟨rfl, rfl⟩)).1 rfl,
   ((c5_nested_txupdate_commit_once codecId [1] [9] [2]
      (fun _ s => (Except.error (Err.user 3), s))
      (initSys [([7], Entry.leaf [1])] ()) [9] rfl rfl rfl
      (fun _ _ => ⟨rfl, rfl⟩)).2 (Err.user 3) rfl).1,
   ((c5_nested_txupdate_commit_once codecId [1] [9] [2]
      (fun _ s => (Except.error (Err.user 3), s))
      (initSys [([7], Entry.leaf [1])] ()) [9] rfl rfl rfl
      (fun _ _ => ⟨rfl, rfl⟩)).2 (Err.user 3) rfl).2⟩

/-- C1: the claim expects that after a successful `Set(k, v)` on a Node,
`Exists(k)` on the same Node returns true for every key, all-null keys of
length at least two included.  The code contradicts this: `Node.Set`
stores under the sanitized key `mustKey k`, but `Node.Exists` looks up the
raw `k` without sanitizing.  At `k = "\x00\x00"` the `Set` succeeds
(storing under `"\x00\x00\x00"`) and the subsequent `Exists` on the very
same node returns false. -/
theorem c1_exists_skips_sanitization :
    (Node.Set codecId node1 [0, 0] [9] (initSys [] ())).1 = Except.ok () ∧
    (Node.Exists node1 [0, 0]
      ((Node.Set codecId node1 [0, 0] [9] (initSys [] ())).2)).1 = false ∧
    bGet (txContents [[1]] ((Node.Set codecId node1 [0, 0] [9] (initSys [] ())).2))
      (mustKey [0, 0]) = some [9] :=
  ⟨rfl, rfl, rfl⟩

/-- C2 counterexample: on a fresh writable transaction with the non-empty
path `["\x01"]` over a tree where `"\x01"` is a leaf value, bucket
pre-resolution fails with `ErrIncompatibleValue`; `TxUpdate` then returns
that error with the transaction rolled back and the callback never
invoked — the committed tree does not carry the probe's stamp, refuting
the claim that the callback is still invoked on resolution failure. -/
theorem c2_cex_callback_not_invoked :
    (Node.TxUpdate node1 c2Probe (initSys [([1], Entry.leaf [3])] ())).1
        = Except.error Err.incompatibleValue ∧
    (Node.TxUpdate node1 c2Probe (initSys [([1], Entry.leaf [3])] ())).2.db
        = [([1], Entry.leaf [3])] ∧
    (Node.TxUpdate node1 c2Probe (initSys [([1], Entry.leaf [3])] ())).2.events
        = [Ev.begin true, Ev.rollback] :=
  ⟨rfl, rfl, rfl⟩

/-- C2 (amended): when `TxUpdate` begins a fresh writable transaction on a
Node with a non-empty path and pre-resolution of the current bucket fails,
the failure IS fatal: the callback is never invoked (the outcome is the
same for every callback), the transaction is rolled back, and the
resolution error is returned with the committed tree unchanged. -/
theorem c2_preresolve_failure_fatal {σ α : Type} (n : Node) (s : Sys σ)
    (f : Node → Op σ α) (e : Err)
    (hn : n.txn = none) (hp : n.path ≠ [])
    (hres : createBucketAt s.db n.path = Except.error e) :
    Node.TxUpdate n f s =
      (Except.error e,
       { db := s.db, tx := none,
         events := s.events ++ [Ev.begin true, Ev.rollback], user := s.user }) := by
  have hlen : 0 < n.path.length := by
    cases hpath : n.path with
    | nil => exact absurd hpath hp
    | cons a t => simp
  simp only [Node.TxUpdate, Node.doTx, hn, Node.bucketR, hlen, and_true, if_pos,
    sysRollback]
  simp [hres, sysRollback, List.append_assoc]

/-- C2 witness. -/
theorem c2_preresolve_failure_fatal_witness :
    Node.TxUpdate node1 (fun _ s => (Except.ok (), s)) (initSys [([1], Entry.leaf [3])] ()) =
      (Except.error Err.incompatibleValue,
       { db := [([1], Entry.leaf [3])], tx := none,
         events := [Ev.begin true, Ev.rollback], user := () }) := by
  have h := c2_preresolve_failure_fatal (σ := Unit) (α := Unit) node1
    (initSys [([1], Entry.leaf [3])] ()) (fun _ s => (Except.ok (), s))
    Err.incompatibleValue rfl (by decide) rfl
  simpa [initSys] using h

/-- C3 counterexample: `mustKey` is not idempotent on the claimed domain:
at the empty key, `mustKey "" = "\x00\x00"` and applying `mustKey` again
appends another null byte. -/
theorem c3_cex_not_idempotent : mustKey (mustKey []) ≠ mustKey [] := by decide

/-- C3 (amended): for every key `k` that is empty or consists entirely of
null bytes, `mustKey k` never collides with `mustKey ""` when `k` is
non-empty; and instead of being idempotent, a second application performs
exactly the documented one-byte append: it appends one more null byte,
except on the single-null key, which is a fixed point. -/
theorem c3_sanitize_props (k : Key) (hk : k = [] ∨ ∀ c ∈ k, c = 0) :
    (k ≠ [] → mustKey k ≠ mustKey []) ∧
    (mustKey (mustKey k) =
      if k.length = 1 then mustKey k else mustKey k ++ [0]) := by
  rcases hk with rfl | hall
  · exact ⟨fun h => absurd rfl h, by decide⟩
  · have hcount : k.countP (fun c => decide (c = 0)) = k.length := by
      rw [List.countP_eq_length]
      intro a ha
      simp [hall a ha]
    match k, hall with
    | [], _ => exact ⟨fun h => absurd rfl h, by decide⟩
    | [a], hall =>
      have ha : a = 0 := hall a (by simp)
      subst ha
      exact ⟨by decide, by decide⟩
    | a :: b :: t, hall =>
      have ha : a = 0 := hall a (by simp)
      have hb : b = 0 := hall b (by simp)
      have h2 : 2 ≤ (a :: b :: t).length := by simp
      have hm : mustKey (a :: b :: t) = a :: b :: t ++ [0] := by
        simp only [mustKey, if_neg (by simp : ¬(a :: b :: t : Key) = [])]
        rw [hcount]
        simp [h2]
      constructor
      · intro _
        rw [hm]
        intro hcontra
        have := congrArg List.length hcontra
        simp [mustKey, nullKey] at this
      · have hall2 : ∀ c ∈ (a :: b :: t ++ [0] : Key), c = 0 := by
          intro c hc
          have hc2 : c ∈ (a :: b :: t : Key) ++ [0] := by simpa using hc
          rcases List.mem_append.mp hc2 with h | h
          · exact hall c h
          · simpa using h
        have hcount2 : (a :: b :: t ++ [0] : Key).countP (fun c => decide (c = 0))
            = (a :: b :: t ++ [0] : Key).length := by
          rw [List.countP_eq_length]
          intro x hx
          simp [hall2 x hx]
        have hm2 : mustKey (a :: b :: t ++ [0]) = a :: b :: t ++ [0] ++ [0] := by
          simp only [mustKey, if_neg (by simp : ¬(a :: b :: t ++ [0] : Key) = [])]
          rw [hcount2]
          have : 2 ≤ (a :: b :: t ++ [0] : Key).length := by simp
          simp [this]
        rw [hm, hm2]
        have : ¬(a :: b :: t : Key).length = 1 := by simp
        simp [this]

/-- C3 witness. -/
theorem c3_sanitize_props_witness :
    (([0, 0] : Key) ≠ [] → mustKey [0, 0] ≠ mustKey []) ∧
    (mustKey (mustKey [0, 0]) =
      if ([0, 0] : Key).length = 1 then mustKey [0, 0] else mustKey [0, 0] ++ [0]) :=
  c3_sanitize_props [0, 0] (Or.inr (by decide))

/-- C7: when the codec fails to serialize the value, `Set` returns the
encode error before any transaction is opened, and the whole world state —
committed tree, transaction slot and event trace included — is returned
unchanged: no transaction began, no bucket was created, no entry was
written. -/
theorem c7_set_fails_before_tx {V σ : Type} (kv : Codec V) (n : Node) (k : Key)
    (v : V) (e : Err) (s : Sys σ) (h : kv.marshal v = Except.error e) :
    Node.Set kv n k v s = (Except.error e, s) := by
  simp only [Node.Set, h]

/-- C7 witness. -/
theorem c7_set_fails_before_tx_witness :
    Node.Set codecFail node1 [5] 0 (initSys [] ()) =
      (Except.error (Err.user 1), initSys [] ()) :=
  c7_set_fails_before_tx codecFail node1 [5] 0 (Err.user 1) (initSys [] ()) rfl

/-- C10: the `prefix` parameter of `Each`, `EachKey` and `Length` has no
effect: for any two prefixes the three operations are the very same
function of the stored state; in particular (last conjunct) a key that
does not start with the given prefix is still visited. -/
theorem c10_prefix_has_no_effect {V σ : Type} (kv : Codec V) (n : Node) (p1 p2 : Key)
    (fn : σ → V → Key → Nat → Option Err × σ)
    (fk : σ → Key → Nat → Option Err × σ) :
    Node.Each kv n p1 fn = Node.Each kv n p2 fn ∧
    Node.EachKey (σ := σ) n p1 fk = Node.EachKey n p2 fk ∧
    Node.Length (σ := σ) n p1 = Node.Length n p2 ∧
    (Node.EachKey rootNode [9, 9]
      (fun (u : List Key) (k : Key) (l : Nat) => (none, u ++ [k]))
      (initSys [([1], Entry.leaf [4])] [])).2.user = [[1]] :=
  ⟨rfl, rfl, rfl, rfl⟩

end KVDB
